import Mathlib

/-!
Shallow embedding of the parallel matrix-multiplication engine of this
repository (`src/vector.rs` and `src/matrix.rs`).

The concurrent worker-pool computation is functionally deterministic: the
dispatcher enumerates output cells in row-major order, each task computes one
dot product, and the collector awaits the per-task reply channels in dispatch
order and writes each reply to its embedded index.  The engine is therefore
modelled by pure functions: `anyhow::Result` becomes `Except String`, a task
is the `MsgInput` payload it carries, and the `expect` panic of the `Mul`
operator implementation is modelled by `Option.none`.
-/

deriving instance DecidableEq for Except

namespace MatrixMul

/-- The `Vector<T>` container of `src/vector.rs`: a thin owned wrapper over a
flat sequence of elements. -/
structure Vector (T : Type) where
  data : List T
  deriving DecidableEq

/-- The `dot_product` function of `src/vector.rs` (lines 9-22): if the two
vector lengths differ it fails, otherwise it accumulates `sum += a[i] * b[i]`
for `i` ascending from `0`, starting from `T::default()` (modelled by
`Inhabited.default`). -/
def dot_product {T : Type} [Mul T] [Add T] [Inhabited T] (a b : Vector T) :
    Except String T :=
  if a.data.length ≠ b.data.length then
    Except.error "Vector dimensions do not match"
  else
    Except.ok ((List.range a.data.length).foldl
      (fun sum i => sum + a.data.getD i default * b.data.getD i default)
      default)

/-- The `Matrix<T>` container of `src/matrix.rs` (lines 24-28): a row-major
flat buffer `data` together with the dimensions `row` and `col`. -/
structure Matrix (T : Type) where
  data : List T
  row : Nat
  col : Nat
  deriving DecidableEq

/-- The constant `NUM_THREADS` of `src/matrix.rs` line 13: the fixed size of
the worker pool. -/
def NUM_THREADS : Nat := 4

/-- The constructor `Matrix::new` of `src/matrix.rs` (lines 158-166): it
stores the caller-supplied buffer and dimensions without any check. -/
def Matrix.new {T : Type} (data : List T) (row col : Nat) : Matrix T :=
  Matrix.mk data row col

/-- The row view built by `multiply` at `src/matrix.rs` line 84: the slice
`a.data[i * a.col .. (i + 1) * a.col]`. -/
def rowView {T : Type} (a : Matrix T) (i : Nat) : Vector T :=
  Vector.mk ((a.data.drop (i * a.col)).take a.col)

/-- Helper for `stepBy`: emits the head when the countdown hits zero and then
restarts the countdown at `n - 1`, otherwise skips the head. -/
def stepByAux {T : Type} (n : Nat) : List T → Nat → List T
  | [], _ => []
  | x :: xs, 0 => x :: stepByAux n xs (n - 1)
  | _ :: xs, k + 1 => stepByAux n xs k

/-- Rust's `Iterator::step_by(n)`: the first element, then every `n`-th
element after it.  Used by `multiply` with `n = b.col` (never with `n = 0`). -/
def stepBy {T : Type} (l : List T) (n : Nat) : List T :=
  stepByAux n l 0

/-- The column view built by `multiply` at `src/matrix.rs` lines 85-90:
`b.data[j..].iter().step_by(b.col)`, collected into an owned vector. -/
def colView {T : Type} (b : Matrix T) (j : Nat) : Vector T :=
  Vector.mk (stepBy (b.data.drop j) b.col)

/-- The task payload `MsgInput` of `src/matrix.rs` (lines 124-128): the
output-cell index together with the row and column views. -/
structure MsgInput (T : Type) where
  idx : Nat
  row : Vector T
  col : Vector T
  deriving DecidableEq

/-- The reply `MsgOutput` of `src/matrix.rs` (lines 130-133): the output-cell
index together with the computed scalar. -/
structure MsgOutput (T : Type) where
  idx : Nat
  value : T
  deriving DecidableEq

/-- The task payloads built by the dispatch loop of `multiply`
(`src/matrix.rs` lines 78-101), in the order the loop creates them:
row-major over output coordinates, `i` outer over `0..a.row`, `j` inner over
`0..b.col`, with `idx = i * b.col + j`. -/
def taskList {T : Type} (a b : Matrix T) : List (MsgInput T) :=
  (List.range a.row).flatMap (fun i =>
    (List.range b.col).map (fun j =>
      MsgInput.mk (i * b.col + j) (rowView a i) (colView b j)))

/-- The worker a task is routed to at `src/matrix.rs` line 95:
`senders[idx % NUM_THREADS]`. -/
def targetWorker (idx : Nat) : Nat :=
  idx % NUM_THREADS

/-- The `multiply` function of `src/matrix.rs` (lines 30-122).  After the
dimension check it allocates `a.row * b.col` default-initialised output slots,
dispatches one dot-product task per output cell (row-major), and collects the
replies in dispatch order, writing each value at its task's index.  A failing
dot product makes the collector's `rx.recv()?` fail, which the model renders
as the dot product's error propagating out of the fold. -/
def multiply {T : Type} [Mul T] [Add T] [Inhabited T] (a b : Matrix T) :
    Except String (Matrix T) :=
  if a.col ≠ b.row then
    Except.error "Matrix dimensions do not match, a.col != b.row"
  else do
    let init : List T := List.replicate (a.row * b.col) default
    let data ← (taskList a b).foldlM (fun d msg => do
      let value ← dot_product msg.row msg.col
      pure (d.set msg.idx value)) init
    pure (Matrix.mk data a.row b.col)

/-- The `Mul` implementation for `Matrix<T>` (`src/matrix.rs` lines 142-151):
`multiply(&self, &rhs).expect("Matrix multiply error!")`.  The `expect` panic
(an unrecoverable abort) is modelled by `Option.none`. -/
def Matrix.mul {T : Type} [Mul T] [Add T] [Inhabited T] (a b : Matrix T) :
    Option (Matrix T) :=
  (multiply a b).toOption

/-- The `fmt::Display` implementation for `Matrix<T>` (`src/matrix.rs` lines
171-193): an opening brace, then for each row the elements separated by
single spaces, rows separated by a comma and a space, then a closing brace. -/
def displayString {T : Type} [ToString T] [Inhabited T] (m : Matrix T) :
    String :=
  ((List.range m.row).foldl (fun s i =>
    let s := (List.range m.col).foldl (fun s j =>
      let s := s ++ toString (m.data.getD (i * m.col + j) default)
      if j ≠ m.col - 1 then s ++ " " else s) s
    if i ≠ m.row - 1 then s ++ ", " else s) "\x7b") ++ "\x7d"

/-- The `fmt::Debug` implementation for `Matrix<T>` (`src/matrix.rs` lines
195-202): `Matrix(row=R, col=C, <display>)`. -/
def debugString {T : Type} [ToString T] [Inhabited T] (m : Matrix T) :
    String :=
  "Matrix(row=" ++ toString m.row ++ ", col=" ++ toString m.col ++ ", " ++
    displayString m ++ ")"

/-- The representation invariant of the data model: the flat buffer has
exactly `row * col` elements. -/
def Wellformed {T : Type} (m : Matrix T) : Prop :=
  m.data.length = m.row * m.col

instance {T : Type} (m : Matrix T) : Decidable (Wellformed m) := by
  unfold Wellformed
  infer_instance

/-- The identity matrix of size `n`, the test input of the spec's identity
property: ones on the diagonal, zeros elsewhere, in row-major layout. -/
def identityMatrix (T : Type) [Zero T] [One T] (n : Nat) : Matrix T :=
  Matrix.mk
    ((List.range (n * n)).map (fun idx => if idx / n = idx % n then 1 else 0))
    n n

/-- Spec-side string join, used to state the rendering contract. -/
def strJoin : List String → String
  | [] => ""
  | x :: xs => x ++ strJoin xs

/-- Spec-side separator-interleaved join, used to state the rendering
contract of `fmt::Display` ("space-separated within a row, comma-separated
between rows"). -/
def intercalateStr (sep : String) : List String → String
  | [] => ""
  | [x] => x
  | x :: y :: xs => x ++ sep ++ intercalateStr sep (y :: xs)

/-- Proof helper: the scalar a successful dot product of a task's views
yields (defaulting on the error branch, which never fires on the tasks
`multiply` builds). -/
def dotValue {T : Type} [Mul T] [Add T] [Inhabited T] (msg : MsgInput T) : T :=
  match dot_product msg.row msg.col with
  | Except.ok v => v
  | Except.error _ => default

/-- Proof helper, the pure form of the collector loop of `multiply`
(`src/matrix.rs` lines 105-111): write each task's value at its index, in
task order. -/
def collect {T : Type} [Mul T] [Add T] [Inhabited T]
    (l : List (MsgInput T)) (init : List T) : List T :=
  l.foldl (fun d msg => d.set msg.idx (dotValue msg)) init

/-! ### Lemmas about `stepBy` and the row/column views -/

lemma stepByAux_eq_drop {T : Type} (n : Nat) :
    ∀ (l : List T) (k : Nat), stepByAux n l k = stepByAux n (l.drop k) 0 := by
  intro l
  induction l with
  | nil => intro k; simp [stepByAux]
  | cons x xs ih =>
    intro k
    cases k with
    | zero => rfl
    | succ k => simpa [stepByAux] using ih k

lemma stepBy_nil {T : Type} (n : Nat) : stepBy ([] : List T) n = [] := rfl

lemma stepBy_cons {T : Type} (n : Nat) (x : T) (xs : List T) :
    stepBy (x :: xs) n = x :: stepBy (xs.drop (n - 1)) n := by
  simp only [stepBy, stepByAux]
  rw [stepByAux_eq_drop]

lemma length_stepBy {T : Type} (n : Nat) (hn : 0 < n) (l : List T) :
    (stepBy l n).length = (l.length + (n - 1)) / n := by
  have key : ∀ (N : Nat) (l : List T), l.length ≤ N →
      (stepBy l n).length = (l.length + (n - 1)) / n := by
    intro N
    induction N with
    | zero =>
      intro l hl
      have : l = [] := List.eq_nil_of_length_eq_zero (Nat.le_zero.mp hl)
      subst this
      simp [stepBy_nil, Nat.div_eq_of_lt (by omega : n - 1 < n)]
    | succ N ih =>
      intro l hl
      cases l with
      | nil => simp [stepBy_nil, Nat.div_eq_of_lt (by omega : n - 1 < n)]
      | cons x xs =>
        rw [stepBy_cons, List.length_cons,
          ih (xs.drop (n - 1)) (by simp at hl ⊢; omega)]
        simp only [List.length_drop, List.length_cons]
        have hdrop : (xs.length - (n - 1) + (n - 1)) / n = xs.length / n := by
          rcases le_or_lt (n - 1) xs.length with hle | hlt
          · rw [Nat.sub_add_cancel hle]
          · rw [Nat.sub_eq_zero_of_le (Nat.le_of_lt hlt), Nat.zero_add,
              Nat.div_eq_of_lt (by omega), Nat.div_eq_of_lt (by omega)]
        rw [hdrop]
        have hsum : xs.length + 1 + (n - 1) = xs.length + n := by omega
        rw [hsum, Nat.add_div_right _ hn]
  exact key l.length l le_rfl

lemma getElem?_stepBy {T : Type} (n : Nat) (hn : 0 < n) :
    ∀ (k : Nat) (l : List T), (stepBy l n)[k]? = l[k * n]? := by
  intro k
  induction k with
  | zero =>
    intro l
    cases l with
    | nil => simp [stepBy_nil]
    | cons x xs => simp [stepBy_cons]
  | succ k ih =>
    intro l
    cases l with
    | nil => simp [stepBy_nil]
    | cons x xs =>
      rw [stepBy_cons, List.getElem?_cons_succ, ih, List.getElem?_drop]
      have harith : (k + 1) * n = (n - 1 + k * n) + 1 := by
        rw [Nat.succ_mul]
        omega
      rw [harith, ← List.getElem?_cons_succ]

lemma length_rowView {T : Type} (a : Matrix T) (i : Nat)
    (ha : Wellformed a) (hi : i < a.row) :
    (rowView a i).data.length = a.col := by
  unfold Wellformed at ha
  simp only [rowView, List.length_take, List.length_drop, ha]
  have hmul : (i + 1) * a.col ≤ a.row * a.col :=
    Nat.mul_le_mul_right _ (Nat.succ_le_of_lt hi)
  rw [Nat.succ_mul] at hmul
  omega

lemma getElem?_rowView {T : Type} (a : Matrix T) (i k : Nat) (hk : k < a.col) :
    (rowView a i).data[k]? = a.data[i * a.col + k]? := by
  simp only [rowView, List.getElem?_take, if_pos hk, List.getElem?_drop]

lemma length_colView {T : Type} (b : Matrix T) (j : Nat)
    (hb : Wellformed b) (hj : j < b.col) :
    (colView b j).data.length = b.row := by
  have hc : 0 < b.col := Nat.lt_of_le_of_lt (Nat.zero_le j) hj
  unfold Wellformed at hb
  simp only [colView, length_stepBy _ hc, List.length_drop, hb]
  rcases Nat.eq_zero_or_pos b.row with hr | hr
  · rw [hr]
    simp only [Nat.zero_mul, Nat.zero_sub, Nat.zero_add]
    exact Nat.div_eq_of_lt (by omega)
  · have hjm : j ≤ b.row * b.col := le_trans (Nat.le_of_lt hj)
      (Nat.le_mul_of_pos_left _ hr)
    have harith : b.row * b.col - j + (b.col - 1) =
        (b.col - 1 - j) + b.col * b.row := by
      have hcr : b.col ≤ b.col * b.row := Nat.le_mul_of_pos_right _ hr
      rw [Nat.mul_comm b.row b.col] at hjm ⊢
      omega
    rw [harith, Nat.add_mul_div_left _ _ hc, Nat.div_eq_of_lt (by omega),
      Nat.zero_add]

lemma getElem?_colView {T : Type} (b : Matrix T) (j k : Nat) (hj : j < b.col) :
    (colView b j).data[k]? = b.data[j + k * b.col]? := by
  have hc : 0 < b.col := Nat.lt_of_le_of_lt (Nat.zero_le j) hj
  simp only [colView, getElem?_stepBy _ hc, List.getElem?_drop]

/-! ### Lemmas about `dot_product` -/

lemma dot_product_ok {T : Type} [Mul T] [Add T] [Inhabited T]
    (a b : Vector T) (h : a.data.length = b.data.length) :
    dot_product a b = Except.ok ((List.range a.data.length).foldl
      (fun sum i => sum + a.data.getD i default * b.data.getD i default)
      default) := by
  simp [dot_product, h]

lemma dot_product_isOk {T : Type} [Mul T] [Add T] [Inhabited T]
    (a b : Vector T) (h : a.data.length = b.data.length) :
    (dot_product a b).isOk := by
  rw [dot_product_ok a b h]
  rfl

lemma foldl_add_eq_sum {M : Type} [AddCommMonoid M] (g : Nat → M) :
    ∀ (n : Nat) (c : M),
      (List.range n).foldl (fun s i => s + g i) c =
        c + ∑ i ∈ Finset.range n, g i := by
  intro n
  induction n with
  | zero => intro c; simp
  | succ n ih =>
    intro c
    rw [List.range_succ, List.foldl_append, ih, Finset.sum_range_succ,
      List.foldl_cons, List.foldl_nil, add_assoc]

/-! ### Lemmas about `taskList` -/

lemma length_flatMap_range {β : Type} (g : Nat → List β) (C : Nat)
    (hC : ∀ x, (g x).length = C) :
    ∀ R : Nat, ((List.range R).flatMap g).length = R * C := by
  intro R
  induction R with
  | zero => simp
  | succ R ih =>
    rw [List.range_succ, List.flatMap_append, List.length_append, ih,
      List.flatMap_singleton, hC, Nat.succ_mul]

lemma getElem?_flatMap_range {β : Type} (g : Nat → List β) (C : Nat)
    (hC : ∀ x, (g x).length = C) :
    ∀ (R i j : Nat), i < R → j < C →
      ((List.range R).flatMap g)[i * C + j]? = (g i)[j]? := by
  intro R
  induction R with
  | zero => intro i j hi _; omega
  | succ R ih =>
    intro i j hi hj
    rw [List.range_succ, List.flatMap_append, List.getElem?_append,
      length_flatMap_range g C hC]
    rcases Nat.lt_or_ge i R with hiR | hiR
    · have hlt : i * C + j < R * C := by
        have h1 : (i + 1) * C ≤ R * C := Nat.mul_le_mul_right _ hiR
        rw [Nat.succ_mul] at h1
        omega
      rw [if_pos hlt]
      exact ih i j hiR hj
    · have hieq : i = R := by omega
      subst hieq
      have hge : ¬ (i * C + j < i * C) := by omega
      rw [if_neg hge, List.flatMap_singleton, Nat.add_sub_cancel_left]

lemma length_inner_taskList {T : Type} (a b : Matrix T) (i : Nat) :
    ((List.range b.col).map (fun j =>
      MsgInput.mk (i * b.col + j) (rowView a i) (colView b j))).length =
      b.col := by
  simp

lemma length_taskList {T : Type} (a b : Matrix T) :
    (taskList a b).length = a.row * b.col := by
  exact length_flatMap_range _ _ (length_inner_taskList a b) a.row

lemma getElem?_taskList {T : Type} (a b : Matrix T) (i j : Nat)
    (hi : i < a.row) (hj : j < b.col) :
    (taskList a b)[i * b.col + j]? =
      some (MsgInput.mk (i * b.col + j) (rowView a i) (colView b j)) := by
  unfold taskList
  rw [getElem?_flatMap_range _ _ (length_inner_taskList a b) a.row i j hi hj,
    List.getElem?_map, List.getElem?_range hj]
  rfl

lemma mem_taskList {T : Type} (a b : Matrix T) (msg : MsgInput T)
    (h : msg ∈ taskList a b) :
    ∃ i j, i < a.row ∧ j < b.col ∧
      msg = MsgInput.mk (i * b.col + j) (rowView a i) (colView b j) := by
  unfold taskList at h
  rw [List.mem_flatMap] at h
  obtain ⟨i, hi, hmem⟩ := h
  rw [List.mem_map] at hmem
  obtain ⟨j, hj, hmsg⟩ := hmem
  exact ⟨i, j, List.mem_range.mp hi, List.mem_range.mp hj, hmsg.symm⟩

lemma taskList_mk_mem {T : Type} (a b : Matrix T) (i j : Nat)
    (hi : i < a.row) (hj : j < b.col) :
    MsgInput.mk (i * b.col + j) (rowView a i) (colView b j) ∈ taskList a b := by
  unfold taskList
  rw [List.mem_flatMap]
  exact ⟨i, List.mem_range.mpr hi,
    List.mem_map.mpr ⟨j, List.mem_range.mpr hj, rfl⟩⟩

lemma nodup_taskList_idx {T : Type} (a b : Matrix T) :
    ((taskList a b).map MsgInput.idx).Nodup := by
  unfold taskList
  rw [List.map_flatMap]
  rw [List.nodup_flatMap]
  constructor
  · intro i _
    simp only [List.map_map]
    refine List.Nodup.map ?_ (List.nodup_range _)
    intro x y hxy
    simpa using hxy
  · have hpair := List.pairwise_lt_range a.row
    refine hpair.imp ?_
    intro i1 i2 hlt x hx1 hx2
    simp only [List.map_map, List.mem_map, Function.comp] at hx1 hx2
    obtain ⟨j1, hj1, hx1⟩ := hx1
    obtain ⟨j2, hj2, hx2⟩ := hx2
    rw [List.mem_range] at hj1 hj2
    have h1 : (i1 + 1) * b.col ≤ i2 * b.col :=
      Nat.mul_le_mul_right _ (by omega)
    rw [Nat.succ_mul] at h1
    omega

/-! ### Lemmas about the collector fold -/

lemma ok_bind {ε α β : Type} (v : α) (f : α → Except ε β) :
    (Except.ok v >>= f) = f v := rfl

lemma error_bind {ε α β : Type} (e : ε) (f : α → Except ε β) :
    ((Except.error e : Except ε α) >>= f) = Except.error e := rfl

lemma dotValue_eq {T : Type} [Mul T] [Add T] [Inhabited T]
    (msg : MsgInput T) (v : T) (h : dot_product msg.row msg.col = Except.ok v) :
    dotValue msg = v := by
  simp [dotValue, h]

lemma foldlM_eq_collect {T : Type} [Mul T] [Add T] [Inhabited T] :
    ∀ (l : List (MsgInput T)) (init : List T),
      (∀ msg ∈ l, (dot_product msg.row msg.col).isOk) →
      (l.foldlM (fun d msg => do
        let value ← dot_product msg.row msg.col
        pure (d.set msg.idx value)) init : Except String (List T)) =
        Except.ok (collect l init) := by
  intro l
  induction l with
  | nil => intro init _; rfl
  | cons msg l ih =>
    intro init hok
    have hmsg := hok msg (List.mem_cons_self _ _)
    rcases hval : dot_product msg.row msg.col with e | v
    · rw [hval] at hmsg
      simp [Except.isOk, Except.toBool] at hmsg
    · rw [List.foldlM_cons]
      simp only [hval, collect, List.foldl_cons]
      rw [dotValue_eq msg v hval]
      have := ih (init.set msg.idx v)
        (fun m hm => hok m (List.mem_cons_of_mem _ hm))
      simpa [collect] using this

lemma length_collect {T : Type} [Mul T] [Add T] [Inhabited T] :
    ∀ (l : List (MsgInput T)) (init : List T),
      (collect l init).length = init.length := by
  intro l
  induction l with
  | nil => intro init; rfl
  | cons msg l ih =>
    intro init
    simp only [collect, List.foldl_cons] at ih ⊢
    rw [ih, List.length_set]

lemma getElem?_collect_not_mem {T : Type} [Mul T] [Add T] [Inhabited T] :
    ∀ (l : List (MsgInput T)) (init : List T) (q : Nat),
      (∀ msg ∈ l, msg.idx ≠ q) → (collect l init)[q]? = init[q]? := by
  intro l
  induction l with
  | nil => intro init q _; rfl
  | cons msg l ih =>
    intro init q hne
    simp only [collect, List.foldl_cons] at ih ⊢
    rw [ih _ _ (fun m hm => hne m (List.mem_cons_of_mem _ hm)),
      List.getElem?_set, if_neg (hne msg (List.mem_cons_self _ _))]

lemma getElem?_collect_mem {T : Type} [Mul T] [Add T] [Inhabited T] :
    ∀ (l : List (MsgInput T)) (init : List T) (msg : MsgInput T),
      msg ∈ l → (l.map MsgInput.idx).Nodup → msg.idx < init.length →
      (collect l init)[msg.idx]? = some (dotValue msg) := by
  intro l
  induction l with
  | nil => intro init msg hmem; exact absurd hmem (List.not_mem_nil _)
  | cons m l ih =>
    intro init msg hmem hnodup hlen
    rw [List.map_cons, List.nodup_cons] at hnodup
    rcases List.mem_cons.mp hmem with heq | hmem'
    · subst heq
      simp only [collect, List.foldl_cons]
      have hnot : ∀ m' ∈ l, m'.idx ≠ msg.idx := by
        intro m' hm' hcontra
        exact hnodup.1 (hcontra ▸ List.mem_map_of_mem MsgInput.idx hm')
      rw [show (l.foldl (fun d msg => d.set msg.idx (dotValue msg))
          (init.set msg.idx (dotValue msg))) =
          collect l (init.set msg.idx (dotValue msg)) from rfl,
        getElem?_collect_not_mem l _ _ hnot, List.getElem?_set,
        if_pos rfl, if_pos hlen]
    · simp only [collect, List.foldl_cons]
      have := ih (init.set m.idx (dotValue m)) msg hmem' hnodup.2
        (by rwa [List.length_set])
      simpa [collect] using this

/-! ### The master reduction of `multiply` -/

lemma tasks_view_lengths {T : Type} (a b : Matrix T)
    (ha : Wellformed a) (hb : Wellformed b) (hab : a.col = b.row) :
    ∀ msg ∈ taskList a b,
      msg.row.data.length = a.col ∧ msg.col.data.length = a.col := by
  intro msg hmem
  obtain ⟨i, j, hi, hj, hmsg⟩ := mem_taskList a b msg hmem
  subst hmsg
  exact ⟨length_rowView a i ha hi, by rw [length_colView b j hb hj, hab]⟩

lemma tasks_dot_isOk {T : Type} [Mul T] [Add T] [Inhabited T]
    (a b : Matrix T)
    (ha : Wellformed a) (hb : Wellformed b) (hab : a.col = b.row) :
    ∀ msg ∈ taskList a b, (dot_product msg.row msg.col).isOk := by
  intro msg hmem
  obtain ⟨hrow, hcol⟩ := tasks_view_lengths a b ha hb hab msg hmem
  exact dot_product_isOk _ _ (by rw [hrow, hcol])

lemma multiply_eq_ok_collect {T : Type} [Mul T] [Add T] [Inhabited T]
    (a b : Matrix T) (hab : a.col = b.row)
    (hok : ∀ msg ∈ taskList a b, (dot_product msg.row msg.col).isOk) :
    multiply a b = Except.ok (Matrix.mk
      (collect (taskList a b) (List.replicate (a.row * b.col) default))
      a.row b.col) := by
  have h := foldlM_eq_collect (taskList a b)
    (List.replicate (a.row * b.col) default) hok
  unfold multiply
  rw [if_neg (by simp [hab])]
  simp only [h]
  rfl

/-! ### Pointwise value of the result -/

lemma dot_product_views {T : Type} [CommRing T] [Inhabited T]
    (hd : (default : T) = 0) (a b : Matrix T)
    (ha : Wellformed a) (hb : Wellformed b) (hab : a.col = b.row)
    (i j : Nat) (hi : i < a.row) (hj : j < b.col) :
    dot_product (rowView a i) (colView b j) = Except.ok
      (∑ k ∈ Finset.range a.col,
        a.data.getD (i * a.col + k) default *
          b.data.getD (k * b.col + j) default) := by
  have hrow := length_rowView a i ha hi
  have hcol : (colView b j).data.length = a.col := by
    rw [length_colView b j hb hj, hab]
  rw [dot_product_ok _ _ (by rw [hrow, hcol])]
  congr 1
  rw [hrow]
  have hext : (List.range a.col).foldl
      (fun sum k => sum + (rowView a i).data.getD k default *
        (colView b j).data.getD k default) default =
      (List.range a.col).foldl
      (fun sum k => sum + a.data.getD (i * a.col + k) default *
        b.data.getD (k * b.col + j) default) default := by
    refine List.foldl_ext _ _ _ ?_
    intro acc k hk
    rw [List.mem_range] at hk
    have h1 : (rowView a i).data.getD k default =
        a.data.getD (i * a.col + k) default := by
      rw [List.getD_eq_getElem?_getD, List.getD_eq_getElem?_getD,
        getElem?_rowView a i k hk]
    have h2 : (colView b j).data.getD k default =
        b.data.getD (k * b.col + j) default := by
      rw [List.getD_eq_getElem?_getD, List.getD_eq_getElem?_getD,
        getElem?_colView b j k hj, Nat.add_comm j (k * b.col)]
    rw [h1, h2]
  rw [hext, foldl_add_eq_sum, hd, zero_add]

lemma idx_lt_result_length {R C i j : Nat} (hi : i < R) (hj : j < C) :
    i * C + j < R * C := by
  have h1 : (i + 1) * C ≤ R * C := Nat.mul_le_mul_right _ (Nat.succ_le_of_lt hi)
  rw [Nat.succ_mul] at h1
  omega

lemma collect_taskList_getD {T : Type} [CommRing T] [Inhabited T]
    (hd : (default : T) = 0) (a b : Matrix T)
    (ha : Wellformed a) (hb : Wellformed b) (hab : a.col = b.row)
    (i j : Nat) (hi : i < a.row) (hj : j < b.col) :
    (collect (taskList a b)
      (List.replicate (a.row * b.col) default)).getD (i * b.col + j) default =
      ∑ k ∈ Finset.range a.col,
        a.data.getD (i * a.col + k) default *
          b.data.getD (k * b.col + j) default := by
  have hmem := taskList_mk_mem a b i j hi hj
  have hidx : (MsgInput.mk (i * b.col + j) (rowView a i) (colView b j) :
      MsgInput T).idx < (List.replicate (a.row * b.col) (default : T)).length := by
    rw [List.length_replicate]
    exact idx_lt_result_length hi hj
  have h := getElem?_collect_mem (taskList a b)
    (List.replicate (a.row * b.col) default) _ hmem (nodup_taskList_idx a b) hidx
  rw [List.getD_eq_getElem?_getD]
  rw [show (i * b.col + j) =
    (MsgInput.mk (i * b.col + j) (rowView a i) (colView b j) :
      MsgInput T).idx from rfl, h]
  rw [Option.getD_some]
  exact dotValue_eq _ _ (dot_product_views hd a b ha hb hab i j hi hj)

/-! ### Error branch and output-length lemmas -/

lemma multiply_error_of_mismatch {T : Type} [Mul T] [Add T] [Inhabited T]
    (a b : Matrix T) (h : a.col ≠ b.row) :
    multiply a b = Except.error "Matrix dimensions do not match, a.col != b.row" := by
  unfold multiply
  rw [if_pos h]

lemma foldlM_length {T : Type} [Mul T] [Add T] [Inhabited T] :
    ∀ (l : List (MsgInput T)) (init d : List T),
      (l.foldlM (fun d msg => do
        let value ← dot_product msg.row msg.col
        pure (d.set msg.idx value)) init : Except String (List T)) =
        Except.ok d →
      d.length = init.length := by
  intro l
  induction l with
  | nil =>
    intro init d h
    rw [List.foldlM_nil] at h
    cases h
    rfl
  | cons msg l ih =>
    intro init d h
    rw [List.foldlM_cons] at h
    rcases hval : dot_product msg.row msg.col with e | v
    · rw [hval, error_bind, error_bind] at h
      exact absurd h (by simp)
    · rw [hval, ok_bind, pure_bind] at h
      have := ih (init.set msg.idx v) d h
      rwa [List.length_set] at this

lemma multiply_ok_length {T : Type} [Mul T] [Add T] [Inhabited T]
    (a b : Matrix T) (m : Matrix T) (hm : multiply a b = Except.ok m) :
    m.data.length = a.row * b.col ∧ m.row = a.row ∧ m.col = b.col := by
  simp only [multiply] at hm
  by_cases hab : a.col ≠ b.row
  · rw [if_pos hab] at hm
    exact absurd hm (by simp)
  · rw [if_neg hab] at hm
    rcases hfold : ((taskList a b).foldlM (fun d msg => do
        let value ← dot_product msg.row msg.col
        pure (d.set msg.idx value))
        (List.replicate (a.row * b.col) (default : T)) :
        Except String (List T)) with e | d
    · rw [hfold, error_bind] at hm
      exact absurd hm (by simp)
    · rw [hfold, ok_bind] at hm
      cases hm
      refine ⟨?_, rfl, rfl⟩
      have := foldlM_length (taskList a b) _ d hfold
      rwa [List.length_replicate] at this

/-! ### Content of the row and column views -/

lemma rowView_data_eq_map {T : Type} [Inhabited T] (a : Matrix T) (i : Nat)
    (ha : Wellformed a) (hi : i < a.row) :
    (rowView a i).data = (List.range a.col).map
      (fun k => a.data.getD (i * a.col + k) default) := by
  refine List.ext_getElem ?_ ?_
  · rw [length_rowView a i ha hi, List.length_map, List.length_range]
  · intro k h1 h2
    have hk : k < a.col := by rwa [length_rowView a i ha hi] at h1
    have hq : i * a.col + k < a.data.length := by
      unfold Wellformed at ha
      rw [ha]
      exact idx_lt_result_length hi hk
    have hsome := getElem?_rowView a i k hk
    rw [List.getElem?_eq_getElem h1, List.getElem?_eq_getElem hq] at hsome
    rw [List.getElem_map, List.getElem_range, List.getD_eq_getElem?_getD,
      List.getElem?_eq_getElem hq, Option.getD_some]
    exact Option.some.inj hsome

lemma colView_data_eq_map {T : Type} [Inhabited T] (b : Matrix T) (j : Nat)
    (hb : Wellformed b) (hj : j < b.col) :
    (colView b j).data = (List.range b.row).map
      (fun k => b.data.getD (j + k * b.col) default) := by
  refine List.ext_getElem ?_ ?_
  · rw [length_colView b j hb hj, List.length_map, List.length_range]
  · intro k h1 h2
    have hk : k < b.row := by rwa [length_colView b j hb hj] at h1
    have hq : j + k * b.col < b.data.length := by
      unfold Wellformed at hb
      rw [hb, Nat.add_comm j (k * b.col)]
      exact idx_lt_result_length hk hj
    have hsome := getElem?_colView b j k hj
    rw [List.getElem?_eq_getElem h1, List.getElem?_eq_getElem hq] at hsome
    rw [List.getElem_map, List.getElem_range, List.getD_eq_getElem?_getD,
      List.getElem?_eq_getElem hq, Option.getD_some]
    exact Option.some.inj hsome

/-! ### The identity matrix -/

lemma identityMatrix_wellformed {T : Type} [Zero T] [One T] (n : Nat) :
    Wellformed (identityMatrix T n) := by
  simp [identityMatrix, Wellformed]

lemma identityMatrix_getD {T : Type} [Zero T] [One T] [Inhabited T]
    (n k j : Nat) (hk : k < n) (hj : j < n) :
    (identityMatrix T n).data.getD (k * n + j) default =
      if k = j then 1 else 0 := by
  have hn : 0 < n := Nat.lt_of_le_of_lt (Nat.zero_le k) hk
  have hlt : k * n + j < n * n := idx_lt_result_length hk hj
  rw [identityMatrix, List.getD_eq_getElem?_getD, List.getElem?_map,
    List.getElem?_range hlt]
  have h1 : (k * n + j) / n = k := by
    rw [Nat.mul_comm k n, Nat.mul_add_div hn, Nat.div_eq_of_lt hj,
      Nat.add_zero]
  have h2 : (k * n + j) % n = j := by
    rw [Nat.mul_comm k n, Nat.mul_add_mod, Nat.mod_eq_of_lt hj]
  simp [h1, h2]

lemma identityMatrix_row {T : Type} [Zero T] [One T] (n : Nat) :
    (identityMatrix T n).row = n := rfl

lemma identityMatrix_col {T : Type} [Zero T] [One T] (n : Nat) :
    (identityMatrix T n).col = n := rfl

/-! ### Claim theorems -/

/-- C1: for all well-formed matrices `a` (R×K) and `b` (K×C) over a
commutative ring whose default element is zero, `multiply a b` succeeds, the
result has `row = a.row` and `col = b.col`, and its element at flat index
`i * b.col + j` is the standard matrix-product entry
`∑ k < a.col, a[i][k] * b[k][j]`. -/
theorem multiply_is_matrix_product {T : Type} [CommRing T] [Inhabited T]
    (hd : (default : T) = 0) (a b : Matrix T)
    (ha : Wellformed a) (hb : Wellformed b) (hab : a.col = b.row) :
    ∃ m, multiply a b = Except.ok m ∧ m.row = a.row ∧ m.col = b.col ∧
      m.data.length = a.row * b.col ∧
      ∀ i j, i < a.row → j < b.col →
        m.data.getD (i * b.col + j) default =
          ∑ k ∈ Finset.range a.col,
            a.data.getD (i * a.col + k) default *
              b.data.getD (k * b.col + j) default := by
  refine ⟨_, multiply_eq_ok_collect a b hab (tasks_dot_isOk a b ha hb hab),
    rfl, rfl, ?_, ?_⟩
  · rw [length_collect, List.length_replicate]
  · intro i j hi hj
    exact collect_taskList_getD hd a b ha hb hab i j hi hj

/-- Witness for C1 at the spec's concrete scenario 1:
`[[1,2,3],[4,5,6]] × [[1,2],[3,4],[5,6]]`. -/
theorem multiply_is_matrix_product_witness :
    ∃ m, multiply (Matrix.mk ([1, 2, 3, 4, 5, 6] : List Int) 2 3)
        (Matrix.mk ([1, 2, 3, 4, 5, 6] : List Int) 3 2) = Except.ok m ∧
      m.row = 2 ∧ m.col = 2 ∧ m.data.length = 2 * 2 ∧
      ∀ i j, i < 2 → j < 2 →
        m.data.getD (i * 2 + j) default =
          ∑ k ∈ Finset.range 3,
            ([1, 2, 3, 4, 5, 6] : List Int).getD (i * 3 + k) default *
              ([1, 2, 3, 4, 5, 6] : List Int).getD (k * 2 + j) default :=
  multiply_is_matrix_product (by decide)
    (Matrix.mk ([1, 2, 3, 4, 5, 6] : List Int) 2 3)
    (Matrix.mk ([1, 2, 3, 4, 5, 6] : List Int) 3 2)
    (by decide) (by decide) (by decide)

/-- C2: whenever `a.col ≠ b.row`, `multiply` fails immediately with the
dimension-mismatch error; in the model the error is returned by the branch
that precedes worker creation and task dispatch, so no task is built and no
other work is performed. -/
theorem multiply_mismatch_fails_immediately {T : Type}
    [Mul T] [Add T] [Inhabited T] (a b : Matrix T) (h : a.col ≠ b.row) :
    multiply a b =
      Except.error "Matrix dimensions do not match, a.col != b.row" :=
  multiply_error_of_mismatch a b h

/-- Witness for C2 at the spec's concrete scenario 3: a 2×3 times a 2×2. -/
theorem multiply_mismatch_fails_immediately_witness :
    multiply (Matrix.mk ([1, 2, 3, 4, 5, 6] : List Int) 2 3)
        (Matrix.mk ([1, 2, 3, 4] : List Int) 2 2) =
      Except.error "Matrix dimensions do not match, a.col != b.row" :=
  multiply_mismatch_fails_immediately
    (Matrix.mk ([1, 2, 3, 4, 5, 6] : List Int) 2 3)
    (Matrix.mk ([1, 2, 3, 4] : List Int) 2 2) (by decide)

/-- C3: `dot_product` on equal-length views returns the left fold, in
index-ascending order and starting from the default element, of the pairwise
products; on views of different lengths it returns the dimension-mismatch
error. -/
theorem dot_product_contract {T : Type} [Mul T] [Add T] [Inhabited T]
    (a b : Vector T) :
    (a.data.length = b.data.length →
      dot_product a b = Except.ok
        (((a.data.zip b.data).map (fun p => p.1 * p.2)).foldl
          (fun s x => s + x) default)) ∧
    (a.data.length ≠ b.data.length →
      dot_product a b = Except.error "Vector dimensions do not match") := by
  constructor
  · intro h
    rw [dot_product_ok a b h]
    congr 1
    have hzip : a.data.zip b.data = (List.range a.data.length).map
        (fun i => (a.data.getD i default, b.data.getD i default)) := by
      refine List.ext_getElem ?_ ?_
      · simp [List.length_zip, h]
      · intro n h1 h2
        rw [List.getElem_zip, List.getElem_map, List.getElem_range]
        have hn : n < a.data.length := by
          simp only [List.length_zip, h, Nat.min_self] at h1
          omega
        have hnb : n < b.data.length := h ▸ hn
        rw [List.getD_eq_getElem?_getD, List.getD_eq_getElem?_getD,
          List.getElem?_eq_getElem hn, List.getElem?_eq_getElem hnb,
          Option.getD_some, Option.getD_some]
    rw [hzip, List.map_map, List.foldl_map]
    rfl
  · intro h
    unfold dot_product
    rw [if_pos h]

/-- Witness for C3: `[1,2,3] · [4,5,6] = 32`, and mismatched lengths fail. -/
theorem dot_product_contract_witness :
    dot_product (Vector.mk ([1, 2, 3] : List Int))
        (Vector.mk ([4, 5, 6] : List Int)) = Except.ok 32 ∧
    dot_product (Vector.mk ([1] : List Int))
        (Vector.mk ([1, 2] : List Int)) =
      Except.error "Vector dimensions do not match" := by
  constructor
  · have h := (dot_product_contract (Vector.mk ([1, 2, 3] : List Int))
      (Vector.mk ([4, 5, 6] : List Int))).1 (by decide)
    rw [h]
    decide
  · exact (dot_product_contract (Vector.mk ([1] : List Int))
      (Vector.mk ([1, 2] : List Int))).2 (by decide)

/-- Counterexample for C4 as stated: `Matrix::new` performs no check, so a
caller-supplied buffer of the wrong length violates `data.length = row * col`
at construction. -/
theorem matrix_new_invariant_cex :
    ¬ ((Matrix.new ([0] : List Int) 2 2).data.length = 2 * 2) := by
  decide

/-- C4 (amended): the invariant `data.length = row * col` holds on
construction via `Matrix::new` whenever the caller supplies a buffer of
length `row * col` (the constructor's unchecked precondition), and every
successful multiplication produces a matrix whose buffer has length
`a.row * b.col` (with `row = a.row` and `col = b.col`). -/
theorem matrix_data_length_invariant {T : Type} [Mul T] [Add T] [Inhabited T] :
    (∀ (d : List T) (r c : Nat), d.length = r * c →
      (Matrix.new d r c).data.length = r * c) ∧
    (∀ (a b m : Matrix T), multiply a b = Except.ok m →
      m.data.length = a.row * b.col) := by
  constructor
  · intro d r c hdc
    exact hdc
  · intro a b m hm
    exact (multiply_ok_length a b m hm).1

/-- Witness for C4 (amended): a correctly sized construction, and the
2×3 × 3×2 product whose buffer has length 4. -/
theorem matrix_data_length_invariant_witness :
    (Matrix.new ([1, 2, 3, 4, 5, 6] : List Int) 2 3).data.length = 2 * 3 ∧
    (Matrix.mk ([22, 28, 49, 64] : List Int) 2 2).data.length = 2 * 2 := by
  constructor
  · exact (matrix_data_length_invariant).1 ([1, 2, 3, 4, 5, 6] : List Int)
      2 3 (by decide)
  · exact (matrix_data_length_invariant).2
      (Matrix.mk ([1, 2, 3, 4, 5, 6] : List Int) 2 3)
      (Matrix.mk ([1, 2, 3, 4, 5, 6] : List Int) 3 2)
      (Matrix.mk ([22, 28, 49, 64] : List Int) 2 2) (by decide)

/-- C5: on a dimension mismatch the operator form (modelled by `Matrix.mul`,
where `none` stands for the `expect` panic/abort) aborts instead of returning
a recoverable error, while the explicit `multiply` returns the recoverable
dimension-mismatch error for the same inputs. -/
theorem mul_operator_aborts_on_mismatch {T : Type} [Mul T] [Add T]
    [Inhabited T] (a b : Matrix T) (h : a.col ≠ b.row) :
    Matrix.mul a b = none ∧
      multiply a b =
        Except.error "Matrix dimensions do not match, a.col != b.row" := by
  have herr := multiply_error_of_mismatch a b h
  exact ⟨by rw [Matrix.mul, herr]; rfl, herr⟩

/-- Witness for C5 at the spec's concrete scenario 3: a 2×3 times a 2×2. -/
theorem mul_operator_aborts_on_mismatch_witness :
    Matrix.mul (Matrix.mk ([1, 2, 3, 4, 5, 6] : List Int) 2 3)
        (Matrix.mk ([1, 2, 3, 4] : List Int) 2 2) = none ∧
      multiply (Matrix.mk ([1, 2, 3, 4, 5, 6] : List Int) 2 3)
          (Matrix.mk ([1, 2, 3, 4] : List Int) 2 2) =
        Except.error "Matrix dimensions do not match, a.col != b.row" :=
  mul_operator_aborts_on_mismatch
    (Matrix.mk ([1, 2, 3, 4, 5, 6] : List Int) 2 3)
    (Matrix.mk ([1, 2, 3, 4] : List Int) 2 2) (by decide)

/-- C10: for well-formed inputs satisfying `a.col = b.row`, every task built
by `multiply` carries a row view and a column view of length `a.col`, so the
dimension-mismatch branch of `dot_product` is unreachable inside the workers
(every task's dot product succeeds) and `multiply` itself succeeds, never
surfacing that inner error. -/
theorem tasks_never_hit_dot_mismatch {T : Type} [Mul T] [Add T] [Inhabited T]
    (a b : Matrix T) (ha : Wellformed a) (hb : Wellformed b)
    (hab : a.col = b.row) :
    (∀ msg ∈ taskList a b,
      msg.row.data.length = a.col ∧ msg.col.data.length = a.col ∧
        ∃ v, dot_product msg.row msg.col = Except.ok v) ∧
    ∃ m, multiply a b = Except.ok m := by
  constructor
  · intro msg hmem
    obtain ⟨h1, h2⟩ := tasks_view_lengths a b ha hb hab msg hmem
    exact ⟨h1, h2, _, dot_product_ok _ _ (by rw [h1, h2])⟩
  · exact ⟨_, multiply_eq_ok_collect a b hab (tasks_dot_isOk a b ha hb hab)⟩

/-- Witness for C10 at the spec's concrete scenario 1. -/
theorem tasks_never_hit_dot_mismatch_witness :
    (∀ msg ∈ taskList (Matrix.mk ([1, 2, 3, 4, 5, 6] : List Int) 2 3)
        (Matrix.mk ([1, 2, 3, 4, 5, 6] : List Int) 3 2),
      msg.row.data.length = 3 ∧ msg.col.data.length = 3 ∧
        ∃ v, dot_product msg.row msg.col = Except.ok v) ∧
    ∃ m, multiply (Matrix.mk ([1, 2, 3, 4, 5, 6] : List Int) 2 3)
        (Matrix.mk ([1, 2, 3, 4, 5, 6] : List Int) 3 2) = Except.ok m :=
  tasks_never_hit_dot_mismatch
    (Matrix.mk ([1, 2, 3, 4, 5, 6] : List Int) 2 3)
    (Matrix.mk ([1, 2, 3, 4, 5, 6] : List Int) 3 2)
    (by decide) (by decide) (by decide)

/-- C8: tasks are created in row-major order over output coordinates (the
task list has `a.row * b.col` entries and the task for `(i, j)` sits at list
position `i * b.col + j`); that task carries index `idx = i * b.col + j`, the
row view equal to `a`'s row `i`, and the column view equal to the elements of
`b`'s data taken from offset `j` with stride `b.col`; it is routed to worker
`idx % NUM_THREADS` where `NUM_THREADS = 4`. -/
theorem dispatch_row_major_round_robin {T : Type} [Inhabited T]
    (a b : Matrix T) (ha : Wellformed a) (hb : Wellformed b) (i j : Nat)
    (hi : i < a.row) (hj : j < b.col) :
    (taskList a b).length = a.row * b.col ∧
    (taskList a b)[i * b.col + j]? =
      some (MsgInput.mk (i * b.col + j) (rowView a i) (colView b j)) ∧
    (rowView a i).data = (List.range a.col).map
      (fun k => a.data.getD (i * a.col + k) default) ∧
    (colView b j).data = (List.range b.row).map
      (fun k => b.data.getD (j + k * b.col) default) ∧
    targetWorker (i * b.col + j) = (i * b.col + j) % 4 ∧
    NUM_THREADS = 4 := by
  exact ⟨length_taskList a b, getElem?_taskList a b i j hi hj,
    rowView_data_eq_map a i ha hi, colView_data_eq_map b j hb hj, rfl, rfl⟩

/-- Witness for C8 at the spec's concrete scenario 1, coordinate (1, 0). -/
theorem dispatch_row_major_round_robin_witness :
    (taskList (Matrix.mk ([1, 2, 3, 4, 5, 6] : List Int) 2 3)
      (Matrix.mk ([1, 2, 3, 4, 5, 6] : List Int) 3 2)).length = 2 * 2 ∧
    (taskList (Matrix.mk ([1, 2, 3, 4, 5, 6] : List Int) 2 3)
      (Matrix.mk ([1, 2, 3, 4, 5, 6] : List Int) 3 2))[1 * 2 + 0]? =
      some (MsgInput.mk (1 * 2 + 0)
        (rowView (Matrix.mk ([1, 2, 3, 4, 5, 6] : List Int) 2 3) 1)
        (colView (Matrix.mk ([1, 2, 3, 4, 5, 6] : List Int) 3 2) 0)) ∧
    (rowView (Matrix.mk ([1, 2, 3, 4, 5, 6] : List Int) 2 3) 1).data =
      (List.range 3).map
        (fun k => ([1, 2, 3, 4, 5, 6] : List Int).getD (1 * 3 + k) default) ∧
    (colView (Matrix.mk ([1, 2, 3, 4, 5, 6] : List Int) 3 2) 0).data =
      (List.range 3).map
        (fun k => ([1, 2, 3, 4, 5, 6] : List Int).getD (0 + k * 2) default) ∧
    targetWorker (1 * 2 + 0) = (1 * 2 + 0) % 4 ∧
    NUM_THREADS = 4 :=
  dispatch_row_major_round_robin
    (Matrix.mk ([1, 2, 3, 4, 5, 6] : List Int) 2 3)
    (Matrix.mk ([1, 2, 3, 4, 5, 6] : List Int) 3 2)
    (by decide) (by decide) 1 0 (by decide) (by decide)

/-- C6: multiplying a well-formed square matrix by the identity matrix of
matching size, on either side, returns a matrix equal to the original, over a
commutative ring whose default element is the additive identity. -/
theorem multiply_identity_eq_self {T : Type} [CommRing T] [Inhabited T]
    (hd : (default : T) = 0) (m : Matrix T) (hm : Wellformed m)
    (hsq : m.row = m.col) :
    multiply m (identityMatrix T m.col) = Except.ok m ∧
    multiply (identityMatrix T m.row) m = Except.ok m := by
  obtain ⟨d, r, c⟩ := m
  dsimp only at hsq ⊢
  subst hsq
  have hm' : d.length = r * r := hm
  have hr_or : r = 0 ∨ 0 < r := Nat.eq_zero_or_pos r
  constructor
  · -- right identity: m * I = m
    have hab : (Matrix.mk d r r).col = (identityMatrix T r).row := rfl
    have hok := multiply_eq_ok_collect (Matrix.mk d r r) (identityMatrix T r)
      hab (tasks_dot_isOk _ _ hm (identityMatrix_wellformed r) hab)
    dsimp only [identityMatrix_col, identityMatrix_row] at hok
    have hdata : collect
        (taskList (Matrix.mk d r r) (identityMatrix T r))
        (List.replicate (r * r) default) = d := by
      refine List.ext_getElem ?_ ?_
      · rw [length_collect, List.length_replicate, hm']
      · intro q h1 h2
        have hq : q < r * r := by rwa [hm'] at h2
        have hr : 0 < r := by
          rcases hr_or with h0 | h0
          · rw [h0] at hq
            omega
          · exact h0
        have hi : q / r < r := (Nat.div_lt_iff_lt_mul hr).mpr hq
        have hj : q % r < r := Nat.mod_lt _ hr
        have hq_eq : q / r * r + q % r = q := by
          rw [Nat.mul_comm]
          exact Nat.div_add_mod q r
        have hpt := collect_taskList_getD hd (Matrix.mk d r r)
          (identityMatrix T r) hm (identityMatrix_wellformed r) hab
          (q / r) (q % r) hi hj
        rw [identityMatrix_col] at hpt
        dsimp only at hpt
        have hsum : (∑ k ∈ Finset.range r, d.getD (q / r * r + k) default *
            (identityMatrix T r).data.getD (k * r + q % r) default) =
            d.getD q default := by
          rw [Finset.sum_eq_single (q % r)]
          · rw [identityMatrix_getD r (q % r) (q % r) hj hj, if_pos rfl,
              mul_one, hq_eq]
          · intro k hk hkj
            rw [identityMatrix_getD r k (q % r) (Finset.mem_range.mp hk) hj,
              if_neg hkj, mul_zero]
          · intro hmem
            exact absurd (Finset.mem_range.mpr hj) hmem
        rw [hsum, hq_eq] at hpt
        rw [List.getD_eq_getElem?_getD, List.getElem?_eq_getElem h1,
          Option.getD_some] at hpt
        rw [hpt, List.getD_eq_getElem?_getD, List.getElem?_eq_getElem h2,
          Option.getD_some]
    rw [hok, hdata]
  · -- left identity: I * m = m
    have hab : (identityMatrix T r).col = (Matrix.mk d r r).row := rfl
    have hok := multiply_eq_ok_collect (identityMatrix T r) (Matrix.mk d r r)
      hab (tasks_dot_isOk _ _ (identityMatrix_wellformed r) hm hab)
    dsimp only [identityMatrix_col, identityMatrix_row] at hok
    have hdata : collect
        (taskList (identityMatrix T r) (Matrix.mk d r r))
        (List.replicate (r * r) default) = d := by
      refine List.ext_getElem ?_ ?_
      · rw [length_collect, List.length_replicate]
        exact hm'.symm
      · intro q h1 h2
        have hq : q < r * r := by rwa [hm'] at h2
        have hr : 0 < r := by
          rcases hr_or with h0 | h0
          · rw [h0] at hq
            omega
          · exact h0
        have hi : q / r < r := (Nat.div_lt_iff_lt_mul hr).mpr hq
        have hj : q % r < r := Nat.mod_lt _ hr
        have hq_eq : q / r * r + q % r = q := by
          rw [Nat.mul_comm]
          exact Nat.div_add_mod q r
        have hpt := collect_taskList_getD hd (identityMatrix T r)
          (Matrix.mk d r r) (identityMatrix_wellformed r) hm hab
          (q / r) (q % r) hi hj
        rw [identityMatrix_col, identityMatrix_row] at hpt
        dsimp only at hpt
        have hsum : (∑ k ∈ Finset.range r,
            (identityMatrix T r).data.getD (q / r * r + k) default *
              d.getD (k * r + q % r) default) = d.getD q default := by
          rw [Finset.sum_eq_single (q / r)]
          · rw [identityMatrix_getD r (q / r) (q / r) hi hi, if_pos rfl,
              one_mul, hq_eq]
          · intro k hk hkj
            rw [identityMatrix_getD r (q / r) k hi (Finset.mem_range.mp hk),
              if_neg (fun h => hkj h.symm), zero_mul]
          · intro hmem
            exact absurd (Finset.mem_range.mpr hi) hmem
        rw [hsum, hq_eq] at hpt
        rw [List.getD_eq_getElem?_getD, List.getElem?_eq_getElem h1,
          Option.getD_some] at hpt
        rw [hpt, List.getD_eq_getElem?_getD, List.getElem?_eq_getElem h2,
          Option.getD_some]
    rw [hok, hdata]

/-- Witness for C6: the 3×3 matrix `[[1,2,3],[4,5,6],[7,8,9]]` times the
3×3 identity on either side. -/
theorem multiply_identity_eq_self_witness :
    multiply (Matrix.mk ([1, 2, 3, 4, 5, 6, 7, 8, 9] : List Int) 3 3)
        (identityMatrix Int 3) =
      Except.ok (Matrix.mk ([1, 2, 3, 4, 5, 6, 7, 8, 9] : List Int) 3 3) ∧
    multiply (identityMatrix Int 3)
        (Matrix.mk ([1, 2, 3, 4, 5, 6, 7, 8, 9] : List Int) 3 3) =
      Except.ok (Matrix.mk ([1, 2, 3, 4, 5, 6, 7, 8, 9] : List Int) 3 3) :=
  multiply_identity_eq_self (by decide)
    (Matrix.mk ([1, 2, 3, 4, 5, 6, 7, 8, 9] : List Int) 3 3)
    (by decide) (by decide)

/-! ### Rendering lemmas -/

lemma strJoin_append_single (l : List String) (x : String) :
    strJoin (l ++ [x]) = strJoin l ++ x := by
  induction l with
  | nil =>
    simp only [List.nil_append, strJoin]
    rw [String.append_empty, String.empty_append]
  | cons y l ih =>
    have hstep : strJoin ((y :: l) ++ [x]) = y ++ strJoin (l ++ [x]) := rfl
    have hstep2 : strJoin (y :: l) = y ++ strJoin l := rfl
    rw [hstep, ih, hstep2, String.append_assoc]

lemma foldl_append_sep (f : Nat → String) (sep : String) :
    ∀ (n : Nat) (s0 : String),
      (List.range n).foldl (fun s j => s ++ f j ++ sep) s0 =
        s0 ++ strJoin ((List.range n).map (fun j => f j ++ sep)) := by
  intro n
  induction n with
  | zero =>
    intro s0
    simp only [List.range_zero, List.foldl_nil, List.map_nil, strJoin]
    rw [String.append_empty]
  | succ n ih =>
    intro s0
    rw [List.range_succ, List.foldl_append, ih, List.map_append,
      List.map_cons, List.map_nil, strJoin_append_single,
      List.foldl_cons, List.foldl_nil]
    simp only [String.append_assoc]

lemma intercalateStr_append_single (sep : String) :
    ∀ (l : List String) (x : String),
      intercalateStr sep (l ++ [x]) =
        strJoin (l.map (fun y => y ++ sep)) ++ x := by
  intro l
  induction l with
  | nil =>
    intro x
    simp only [List.nil_append, intercalateStr, List.map_nil, strJoin]
    rw [String.empty_append]
  | cons y l ih =>
    intro x
    cases l with
    | nil =>
      simp only [List.nil_append, List.cons_append, intercalateStr,
        List.map_cons, List.map_nil, strJoin]
      rw [String.append_empty, String.append_assoc]
    | cons z l' =>
      have hstep : intercalateStr sep ((y :: z :: l') ++ [x]) =
          y ++ sep ++ intercalateStr sep ((z :: l') ++ [x]) := rfl
      rw [hstep, ih x]
      simp only [List.map_cons, strJoin]
      simp only [String.append_assoc]

lemma foldl_cond_sep (f : Nat → String) (sep : String) :
    ∀ (n : Nat) (s0 : String),
      (List.range n).foldl (fun s j =>
        let s2 := s ++ f j
        if j ≠ n - 1 then s2 ++ sep else s2) s0 =
        s0 ++ intercalateStr sep ((List.range n).map f) := by
  intro n
  cases n with
  | zero =>
    intro s0
    simp only [List.range_zero, List.foldl_nil, List.map_nil, intercalateStr]
    rw [String.append_empty]
  | succ n =>
    intro s0
    rw [List.range_succ, List.foldl_append]
    have hinner : (List.range n).foldl (fun s j =>
        let s2 := s ++ f j
        if j ≠ n + 1 - 1 then s2 ++ sep else s2) s0 =
        (List.range n).foldl (fun s j => s ++ f j ++ sep) s0 := by
      refine List.foldl_ext _ _ _ ?_
      intro acc j hj
      rw [List.mem_range] at hj
      simp only []
      rw [if_pos (by omega)]
    rw [hinner, foldl_append_sep, List.foldl_cons, List.foldl_nil]
    simp only []
    rw [if_neg (by omega), List.map_append, List.map_cons, List.map_nil,
      intercalateStr_append_single, List.map_map]
    have hcomp : ((fun y => y ++ sep) ∘ f) = fun j => f j ++ sep := rfl
    rw [hcomp]
    simp only [String.append_assoc]

/-- C7: `Display` renders a matrix row-major as an opening brace, the rows
each rendered as their elements joined by single spaces, rows joined by a
comma and a space, and a closing brace; `Debug` renders
`Matrix(row=R, col=C, <display>)`; and in particular the 2×2 product
`[[22,28],[49,64]]` displays as the spec's concrete string. -/
theorem display_debug_contract {T : Type} [ToString T] [Inhabited T]
    (m : Matrix T) :
    displayString m = "\x7b" ++ intercalateStr ", " ((List.range m.row).map
      (fun i => intercalateStr " " ((List.range m.col).map
        (fun j => toString (m.data.getD (i * m.col + j) default))))) ++
      "\x7d" ∧
    debugString m = "Matrix(row=" ++ toString m.row ++ ", col=" ++
      toString m.col ++ ", " ++ displayString m ++ ")" ∧
    displayString (Matrix.mk ([22, 28, 49, 64] : List Int) 2 2) =
      "\x7b22 28, 49 64\x7d" := by
  refine ⟨?_, rfl, by decide⟩
  unfold displayString
  simp only [foldl_cond_sep]

end MatrixMul
